import Mathlib

/-!
Shallow embedding of the JIRA-to-PubSub bridge (src/jira_to_pubsub.py) and
verification of the specification claims about its incremental
change-detection and event-classification core.

Modelling conventions:
* JSON values are modelled by the mutual inductive `JVal`; Python dicts
  become association lists whose first matching key wins and whose update
  keeps insertion position, like Python dicts.
* Timestamps are integers (epoch seconds).  The standard-library call
  `datetime.datetime.strptime(t, jiraFormat)` is external; it is abstracted
  as `Ctx.parse : String → Option Int` (`none` models the `ValueError`
  raised on a malformed timestamp string).
* Raising Python code is modelled with `Except PyErr`; an uncaught
  exception kills the process, so state dropped by `Except.error` is
  unobservable, matching the source.
* `LAUNCH_TIME`, the module-level `time.time()` constant, is the field
  `Ctx.launchTime`; at runtime it is a positive epoch value.
* The global `UPDATES` dict is passed explicitly as a value of type
  `Updates`.
* Leaves of the snapshot consumed as text (issue key, timestamp strings)
  are required to be strings at the point of extraction; Python defers such
  type failures to the first string operation on them, which no claim
  exercises.
-/

/-- Python exception kinds raised by the bridge core. -/
inductive PyErr where
  | keyError
  | valueError
  | typeError
  | attrError
deriving DecidableEq, Repr

mutual

/-- JSON-shaped values, as delivered by the Jira search endpoint. -/
inductive JVal where
  | str (s : String)
  | int (n : Int)
  | bool (b : Bool)
  | null
  | obj (l : JFields)
  | arr (l : JList)
deriving DecidableEq, Repr

/-- The key-value pairs of a JSON object, in insertion order. -/
inductive JFields where
  | nil
  | cons (k : String) (v : JVal) (rest : JFields)
deriving DecidableEq, Repr

/-- The elements of a JSON array. -/
inductive JList where
  | nil
  | cons (v : JVal) (rest : JList)
deriving DecidableEq, Repr

end

/-- View a `JFields` as an ordinary association list. -/
def JFields.toL : JFields → List (String × JVal)
  | .nil => []
  | .cons k v rest => (k, v) :: rest.toL

/-- Build a `JFields` from an association list. -/
def JFields.ofL : List (String × JVal) → JFields
  | [] => .nil
  | (k, v) :: rest => .cons k v (JFields.ofL rest)

/-- View a `JList` as an ordinary list. -/
def JList.toL : JList → List JVal
  | .nil => []
  | .cons v rest => v :: rest.toL

/-- Build a `JList` from an ordinary list. -/
def JList.ofL : List JVal → JList
  | [] => .nil
  | v :: rest => .cons v (JList.ofL rest)

/-- Readable constructor for a JSON object. -/
def jobj (l : List (String × JVal)) : JVal := .obj (JFields.ofL l)

/-- Readable constructor for a JSON array. -/
def jarr (l : List JVal) : JVal := .arr (JList.ofL l)

/-- First-match association-list lookup (Python dict read). -/
def alistGet? {α : Type} : List (String × α) → String → Option α
  | [], _ => none
  | (k, v) :: rest, key => if k = key then some v else alistGet? rest key

/-- Association-list write: replace the first matching key in place, else
append at the end — exactly the observable behaviour of a Python dict
assignment. -/
def alistSet {α : Type} : List (String × α) → String → α → List (String × α)
  | [], key, v => [(key, v)]
  | (k, w) :: rest, key, v =>
      if k = key then (key, v) :: rest else (k, w) :: alistSet rest key v

/-- Dict read `d.get(k)` — `none` for a missing key and for any non-dict
value (no claim exercises lookups on non-dict values). -/
def JVal.get? : JVal → String → Option JVal
  | .obj l, key => alistGet? l.toL key
  | _, _ => none

/-- Dict write `d[k] = v`; a no-op on non-dict values (never exercised). -/
def jSet : JVal → String → JVal → JVal
  | .obj l, key, v => .obj (JFields.ofL (alistSet l.toL key v))
  | w, _, _ => w

/-- Iterating a value as a list; non-lists raise `TypeError`. -/
def asArr : JVal → Except PyErr (List JVal)
  | .arr l => .ok l.toL
  | _ => .error .typeError

/-- Python truthiness of a JSON value. -/
def isTruthy : JVal → Bool
  | .str s => !s.isEmpty
  | .int n => n != 0
  | .bool b => b
  | .null => false
  | .obj l => !(l.toL.isEmpty)
  | .arr l => !(l.toL.isEmpty)

/-- Truthiness of `d.get(k)` (missing key means `None`, hence falsy). -/
def isTruthyO : Option JVal → Bool
  | none => false
  | some v => isTruthy v

/-- Python `str()` of a JSON leaf as used in f-string interpolation.
Container reprs are abbreviated; no claim interpolates a container. -/
def pyStr : JVal → String
  | .str s => s
  | .int n => toString n
  | .bool b => if b then "True" else "False"
  | .null => "None"
  | .obj _ => "(dict)"
  | .arr _ => "(list)"

/-- `timedelta.seconds` of a whole-second time difference `d`: the
normalized seconds component, in `[0, 86400)` even for negative `d`. -/
def tdSeconds (d : Int) : Int := d.emod 86400

/-- The environment of one run: the abstracted Jira timestamp parsing
function, the configured `jira_base` link base, and the module constant
`LAUNCH_TIME` recorded at import time. -/
structure Ctx where
  parse : String → Option Int
  jiraBase : String
  launchTime : Int

/-- `JiraTicket.jira_to_datetime` composed with `.timestamp()`:
parses a Jira timestamp string to epoch seconds; a non-string raises
`TypeError`, an unparsable string raises `ValueError` (strptime). -/
def jira_to_datetime (ctx : Ctx) : JVal → Except PyErr Int
  | .str s =>
      match ctx.parse s with
      | some n => .ok n
      | none => .error .valueError
  | _ => .error .typeError

instance {e a : Type} [DecidableEq e] [DecidableEq a] : DecidableEq (Except e a) :=
  fun x y =>
  match x, y with
  | .error u, .error v =>
      if h : u = v then .isTrue (congrArg Except.error h)
      else .isFalse (fun hh => h (by injection hh))
  | .ok u, .ok v =>
      if h : u = v then .isTrue (congrArg Except.ok h)
      else .isFalse (fun hh => h (by injection hh))
  | .error _, .ok _ => .isFalse (fun hh => Except.noConfusion hh)
  | .ok _, .error _ => .isFalse (fun hh => Except.noConfusion hh)

/-- The global `UPDATES` map: issue key to last seen change epoch. -/
abbrev Updates := List (String × Int)

/-- An event dict under construction (Python dict of string keys). -/
abbrev Evt := List (String × JVal)

/-- The `JiraTicket` object state: the data set up by `JiraTicket.__init__`
plus the `events` accumulator filled by the parse methods. -/
structure JiraTicket where
  key : String
  link : String
  summary : JVal
  created : Int
  last_update : Int
  events : List Evt
  json_data : JVal
deriving DecidableEq, Repr

/-- `JiraTicket.__init__`: extracts key, link, summary and creation time
from the snapshot and reads the watermark for the key from `UPDATES`,
defaulting to `LAUNCH_TIME` when the key was never observed.  A snapshot
missing `key`, `fields` or `fields.created` raises `KeyError`; an
unparsable creation timestamp raises `ValueError`. -/
def JiraTicket.init (ctx : Ctx) (updates : Updates) (json_data : JVal) :
    Except PyErr JiraTicket :=
  match json_data.get? "key" with
  | none => .error .keyError
  | some keyV =>
    match keyV with
    | .str key =>
      match json_data.get? "fields" with
      | none => .error .keyError
      | some fields =>
        match fields.get? "created" with
        | none => .error .keyError
        | some createdV =>
          match jira_to_datetime ctx createdV with
          | .error e => .error e
          | .ok created =>
            .ok { key := key
                  link := ctx.jiraBase ++ key
                  summary := (fields.get? "summary").getD (.str "(No summary available)")
                  created := created
                  last_update := (alistGet? updates key).getD ctx.launchTime
                  events := []
                  json_data := json_data }
    | _ => .error .typeError

/-- The in-place rewrite `entry["author"] = entry["creator"]` performed by
`make_event_dict` when the entry has a creator but no author. -/
def rewrite_author (entry : JVal) : JVal :=
  if (entry.get? "author").isNone && (entry.get? "creator").isSome then
    jSet entry "author" ((entry.get? "creator").getD .null)
  else entry

/-- Author name and user id extraction of `make_event_dict`: the sentinel
pair when no author is present, otherwise `displayName`/`name` with `"??"`
defaults; a non-dict author value raises (`.get` on a non-dict). -/
def author_pair (entry : JVal) : Except PyErr (JVal × JVal)  :=
  match entry.get? "author" with
  | none => .ok (.str "??", .str "??")
  | some a =>
    match a with
    | .obj l =>
        .ok ((alistGet? l.toL "displayName").getD (.str "??"),
             (alistGet? l.toL "name").getD (.str "??"))
    | _ => .error .attrError

/-- The characters before the first dash (all of them if there is none). -/
def beforeDash : List Char → List Char
  | [] => []
  | c :: rest => if c = '-' then [] else c :: beforeDash rest

/-- The `project` field: the part of the key before the first dash
(`self.key.split("-", 1)[0]`). -/
def projectOf (key : String) : String := String.mk (beforeDash key.data)

/-- `JiraTicket.make_event_dict`: builds the base change event from one
change-set entry of any type.  Returns the (possibly author-rewritten)
entry together with `none` when the entry has no creation time or is not
newer than the watermark, `some base` otherwise. -/
def make_event_dict (ctx : Ctx) (t : JiraTicket) (entry : JVal) :
    Except PyErr (JVal × Option Evt) :=
  match entry.get? "created" with
  | none => .ok (entry, none)
  | some createdV =>
    match jira_to_datetime ctx ((entry.get? "updated").getD createdV) with
    | .error e => .error e
    | .ok change_epoch =>
      if change_epoch ≤ t.last_update then .ok (entry, none)
      else
        match author_pair (rewrite_author entry) with
        | .error e => .error e
        | .ok (author_name, author_uid) =>
          match jira_to_datetime ctx createdV with
          | .error e => .error e
          | .ok base_entry_created =>
            .ok (rewrite_author entry,
                 some [("key", .str t.key),
                       ("link", .str t.link),
                       ("summary", t.summary),
                       ("project", .str (projectOf t.key)),
                       ("action", .str "unknown"),
                       ("author", author_name),
                       ("author_uid", author_uid),
                       ("timestamp", .int change_epoch),
                       ("base_entry_created", .int base_entry_created)])

/-- The per-item dispatch of `parse_changelog`: zero or one event per
changed-field item, by field name, each guarded by `last_update > 0`. -/
def classify_item (link key : String) (lu : Int) (base : Evt) (item : JVal) :
    List Evt :=
  match item.get? "field" with
  | some (.str f) =>
    if f = "resolution" then
      if isTruthyO (item.get? "fromString") = false then
        let res := (item.get? "toString").getD (.str "Unresolved")
        if 0 < lu then
          [alistSet (alistSet (alistSet base "action" (.str "close"))
             "resolution" res) "action_human_text"
             (.str ("closed <" ++ link ++ "|" ++ key ++ "> as _" ++ pyStr res ++ "_."))]
        else []
      else if 0 < lu then
        let oldR := (item.get? "fromString").getD .null
        let newR := (item.get? "toString").getD (.str "Unresolved")
        [alistSet (alistSet (alistSet (alistSet base "action" (.str "resolution"))
           "from" oldR) "to" newR) "action_human_text"
           (.str ("changed the resolution of <" ++ link ++ "|" ++ key ++ "> from "))]
      else []
    else if f = "status" then
      let oldS := (item.get? "fromString").getD (.str "")
      let newS := (item.get? "toString").getD .null
      if 0 < lu then
        [alistSet (alistSet (alistSet (alistSet base "action" (.str "status"))
           "from" oldS) "to" newS) "action_human_text"
           (.str ("changed the status of <" ++ link ++ "|" ++ key ++ "> to *" ++ pyStr newS ++ "*."))]
      else []
    else if f = "summary" then
      let oldS := (item.get? "fromString").getD (.str "")
      let newS := (item.get? "toString").getD .null
      if 0 < lu then
        [alistSet (alistSet (alistSet (alistSet base "action" (.str "summary"))
           "from" oldS) "to" newS) "action_human_text"
           (.str ("changed the summary of <" ++ link ++ "|" ++ key ++ ">"))]
      else []
    else if f = "description" then
      let oldD := (item.get? "fromString").getD (.str "")
      let newD := (item.get? "toString").getD .null
      if 0 < lu then
        [alistSet (alistSet (alistSet (alistSet base "action" (.str "description"))
           "from" oldD) "to" newD) "action_human_text"
           (.str ("changed the description of <" ++ link ++ "|" ++ key ++ ">"))]
      else []
    else if f = "assignee" then
      let oldA := (item.get? "fromString").getD (.str "")
      let newA := (item.get? "toString").getD (.str "")
      if 0 < lu then
        [alistSet (alistSet (alistSet (alistSet base "action" (.str "assign"))
           "from" oldA) "to" newA) "action_human_text"
           (.str (if isTruthy newA then
                    "assigned *" ++ pyStr newA ++ "* to <" ++ link ++ "|" ++ key ++ ">."
                  else
                    "unassigned *" ++ pyStr oldA ++ "* from <" ++ link ++ "|" ++ key ++ ">."))]
      else []
    else []
  | _ => []

/-- The loop body of `parse_changelog` over the histories list: each entry
goes through `make_event_dict` (threading the in-place author rewrite back
into the list) and, when it qualifies, its `items` are classified. -/
def changelog_go (ctx : Ctx) (t : JiraTicket) :
    List JVal → Except PyErr (List JVal × List Evt)
  | [] => .ok ([], [])
  | change :: rest =>
    match make_event_dict ctx t change with
    | .error e => .error e
    | .ok (change', evOpt) =>
      match evOpt with
      | none =>
        match changelog_go ctx t rest with
        | .error e => .error e
        | .ok (rest', evs) => .ok (change' :: rest', evs)
      | some base =>
        match change'.get? "items" with
        | none => .error .keyError
        | some itemsV =>
          match asArr itemsV with
          | .error e => .error e
          | .ok items =>
            match changelog_go ctx t rest with
            | .error e => .error e
            | .ok (rest', evs) =>
              .ok (change' :: rest',
                   (items.map (classify_item t.link t.key t.last_update base)).flatten ++ evs)

/-- Write the (possibly mutated) histories entries back into the snapshot;
when `changelog` or `histories` is absent the Python code iterated a fresh
default, so there is nothing to write back. -/
def set_histories (j : JVal) (hs : List JVal) : JVal :=
  match j.get? "changelog" with
  | none => j
  | some cl =>
    match cl.get? "histories" with
    | none => j
    | some _ => jSet j "changelog" (jSet cl "histories" (jarr hs))

/-- `JiraTicket.parse_changelog`: classifies every qualifying history
entry of `json_data.changelog.histories` and appends the events. -/
def parse_changelog (ctx : Ctx) (t : JiraTicket) : Except PyErr JiraTicket :=
  match asArr (((t.json_data.get? "changelog").getD (jobj [])).get? "histories"
                 |>.getD (jarr [])) with
  | .error e => .error e
  | .ok elements =>
    match changelog_go ctx t elements with
    | .error e => .error e
    | .ok (elements', evs) =>
      .ok { t with events := t.events ++ evs
                   json_data := set_histories t.json_data elements' }

/-- The loop body of `parse_comments` over the comments list: a qualifying
comment whose update time differs from its creation time is an edit,
otherwise a creation; both carry the body and are guarded by
`last_update > 0`. -/
def comments_go (ctx : Ctx) (t : JiraTicket) :
    List JVal → Except PyErr (List JVal × List Evt)
  | [] => .ok ([], [])
  | c :: rest =>
    match make_event_dict ctx t c with
    | .error e => .error e
    | .ok (c', evOpt) =>
      match evOpt with
      | none =>
        match comments_go ctx t rest with
        | .error e => .error e
        | .ok (rest', evs) => .ok (c' :: rest', evs)
      | some base =>
        if ((alistGet? base "base_entry_created").getD .null)
             ≠ ((alistGet? base "timestamp").getD .null) then
          if 0 < t.last_update then
            match c'.get? "body" with
            | none => .error .keyError
            | some body =>
              match comments_go ctx t rest with
              | .error e => .error e
              | .ok (rest', evs) =>
                .ok (c' :: rest',
                     alistSet (alistSet (alistSet base "action" (.str "comment_edit"))
                       "body" body) "action_human_text" (.str "edited a comment") :: evs)
          else
            match comments_go ctx t rest with
            | .error e => .error e
            | .ok (rest', evs) => .ok (c' :: rest', evs)
        else
          if 0 < t.last_update then
            match c'.get? "body" with
            | none => .error .keyError
            | some body =>
              match comments_go ctx t rest with
              | .error e => .error e
              | .ok (rest', evs) =>
                .ok (c' :: rest',
                     alistSet (alistSet (alistSet base "action" (.str "comment"))
                       "body" body) "action_human_text" (.str "added a comment") :: evs)
          else
            match comments_go ctx t rest with
            | .error e => .error e
            | .ok (rest', evs) => .ok (c' :: rest', evs)

/-- Write the comments entries back into the snapshot. -/
def set_comments (j : JVal) (cs : List JVal) : JVal :=
  match j.get? "fields" with
  | none => j
  | some f =>
    match f.get? "comment" with
    | none => j
    | some c =>
      match c.get? "comments" with
      | none => j
      | some _ => jSet j "fields" (jSet f "comment" (jSet c "comments" (jarr cs)))

/-- `JiraTicket.parse_comments`: classifies every qualifying comment of
`json_data.fields.comment.comments` and appends the events. -/
def parse_comments (ctx : Ctx) (t : JiraTicket) : Except PyErr JiraTicket :=
  match t.json_data.get? "fields" with
  | none => .error .keyError
  | some fields =>
    match asArr ((((fields.get? "comment").getD (jobj [])).get? "comments").getD (jarr [])) with
    | .error e => .error e
    | .ok elements =>
      match comments_go ctx t elements with
      | .error e => .error e
      | .ok (elements', evs) =>
        .ok { t with events := t.events ++ evs
                     json_data := set_comments t.json_data elements' }

/-- The loop body of `parse_worklog` over the worklogs list: like comments
but the body is the `comment` field and events also carry
`timeSpentSeconds`. -/
def worklog_go (ctx : Ctx) (t : JiraTicket) :
    List JVal → Except PyErr (List JVal × List Evt)
  | [] => .ok ([], [])
  | w :: rest =>
    match make_event_dict ctx t w with
    | .error e => .error e
    | .ok (w', evOpt) =>
      match evOpt with
      | none =>
        match worklog_go ctx t rest with
        | .error e => .error e
        | .ok (rest', evs) => .ok (w' :: rest', evs)
      | some base =>
        if ((alistGet? base "base_entry_created").getD .null)
             ≠ ((alistGet? base "timestamp").getD .null) then
          if 0 < t.last_update then
            match w'.get? "comment" with
            | none => .error .keyError
            | some body =>
              match w'.get? "timeSpentSeconds" with
              | none => .error .keyError
              | some spent =>
                match worklog_go ctx t rest with
                | .error e => .error e
                | .ok (rest', evs) =>
                  .ok (w' :: rest',
                       alistSet (alistSet (alistSet (alistSet base
                           "action" (.str "comment_edit"))
                         "body" body) "timespent" spent)
                         "action_human_text" (.str "edited a worklog entry") :: evs)
          else
            match worklog_go ctx t rest with
            | .error e => .error e
            | .ok (rest', evs) => .ok (w' :: rest', evs)
        else
          if 0 < t.last_update then
            match w'.get? "comment" with
            | none => .error .keyError
            | some body =>
              match w'.get? "timeSpentSeconds" with
              | none => .error .keyError
              | some spent =>
                match worklog_go ctx t rest with
                | .error e => .error e
                | .ok (rest', evs) =>
                  .ok (w' :: rest',
                       alistSet (alistSet (alistSet (alistSet base
                           "action" (.str "comment"))
                         "body" body) "timespent" spent)
                         "action_human_text" (.str "added a worklog entry") :: evs)
          else
            match worklog_go ctx t rest with
            | .error e => .error e
            | .ok (rest', evs) => .ok (w' :: rest', evs)

/-- Write the worklog entries back into the snapshot. -/
def set_worklogs (j : JVal) (ws : List JVal) : JVal :=
  match j.get? "fields" with
  | none => j
  | some f =>
    match f.get? "worklog" with
    | none => j
    | some c =>
      match c.get? "worklogs" with
      | none => j
      | some _ => jSet j "fields" (jSet f "worklog" (jSet c "worklogs" (jarr ws)))

/-- `JiraTicket.parse_worklog`: classifies every qualifying worklog entry
of `json_data.fields.worklog.worklogs` and appends the events. -/
def parse_worklog (ctx : Ctx) (t : JiraTicket) : Except PyErr JiraTicket :=
  match t.json_data.get? "fields" with
  | none => .error .keyError
  | some fields =>
    match asArr ((((fields.get? "worklog").getD (jobj [])).get? "worklogs").getD (jarr [])) with
    | .error e => .error e
    | .ok elements =>
      match worklog_go ctx t elements with
      | .error e => .error e
      | .ok (elements', evs) =>
        .ok { t with events := t.events ++ evs
                     json_data := set_worklogs t.json_data elements' }

/-- The timestamp of a finished event (`event["timestamp"]`; always an
integer set by `make_event_dict`, the fallback 0 is never reached). -/
def evtTs (e : Evt) : Int :=
  match alistGet? e "timestamp" with
  | some (.int n) => n
  | _ => 0

/-- `max([event["timestamp"] for event in ticket.events])` on a nonempty
events list. -/
def maxTs : List Evt → Int
  | [] => 0
  | e :: rest => rest.foldl (fun acc x => max acc (evtTs x)) (evtTs e)

/-- The brand-new-issue branch of `process_changes`: when the watermark is
exactly 0 and the creation time is within the 30-second window (in the
`timedelta.seconds` sense), seed the watermark with the creation time and
synthesize one `create` event carrying the description.  `base_event` can
be `None` here (line 251 result), in which case the item assignment on it
raises `TypeError`. -/
def create_step (ctx : Ctx) (now : Int) (updates : Updates) (issue : JVal)
    (t : JiraTicket) : Except PyErr (Updates × JiraTicket) :=
  if t.last_update = 0 ∧ tdSeconds (now - t.created) ≤ 30 then
    match issue.get? "fields" with
    | none => .error .keyError
    | some fields =>
      match make_event_dict ctx t fields with
      | .error e => .error e
      | .ok (_, none) => .error .typeError
      | .ok (fields', some base) =>
        .ok (alistSet updates t.key t.created,
             { t with
               events := t.events ++
                 [alistSet (alistSet (alistSet base "action" (.str "create"))
                    "action_human_text"
                    (.str ("created " ++ t.key ++ ": " ++ pyStr t.summary)))
                    "description"
                    ((fields'.get? "description").getD (.str "(No description available)"))]
               json_data := jSet issue "fields" fields' })
  else .ok (updates, t)

/-- The per-issue body of `process_changes`: build the ticket, run the
brand-new-issue special case, parse changelog, comments and worklog, and
advance the watermark to the maximum event timestamp when any event was
produced.  Posting the events to pubsub is the excluded transport
collaborator and has no effect on the core state. -/
def process_one (ctx : Ctx) (now : Int) (updates : Updates) (issue : JVal) :
    Except PyErr (Updates × JiraTicket) :=
  match JiraTicket.init ctx updates issue with
  | .error e => .error e
  | .ok t =>
    match create_step ctx now updates issue t with
    | .error e => .error e
    | .ok (updates1, t1) =>
      match parse_changelog ctx t1 with
      | .error e => .error e
      | .ok t2 =>
        match parse_comments ctx t2 with
        | .error e => .error e
        | .ok t3 =>
          match parse_worklog ctx t3 with
          | .error e => .error e
          | .ok t4 =>
            .ok ((if t4.events.isEmpty then updates1
                  else alistSet updates1 t4.key (maxTs t4.events)), t4)

/-- `process_changes`: one poll cycle over the fetched snapshots, threading
the `UPDATES` store through the issues in order.  An exception raised for
any snapshot propagates and aborts the whole cycle. -/
def process_changes (ctx : Ctx) (now : Int) (updates : Updates) :
    List JVal → Except PyErr (Updates × List JiraTicket)
  | [] => .ok (updates, [])
  | issue :: rest =>
    match process_one ctx now updates issue with
    | .error e => .error e
    | .ok (updates1, t) =>
      match process_changes ctx now updates1 rest with
      | .error e => .error e
      | .ok (updates2, ts) => .ok (updates2, t :: ts)

/-- The outcome of the external HTTP fetch: either a transport failure
(`requests.RequestException`, which also covers an unparsable JSON body in
current requests versions) or a decoded JSON response. -/
inductive FetchResult where
  | transportError
  | response (j : JVal)
deriving DecidableEq, Repr

/-- `fetch_changes`: returns the `issues` list of a dict response and an
empty list on transport failure; a decoded non-dict response trips the
`assert`, whose handler only logs — the function then falls off the end
and returns Python `None`, modelled as `none`. -/
def fetch_changes (r : FetchResult) : Option JVal :=
  match r with
  | .transportError => some (jarr [])
  | .response j =>
    match j with
    | .obj _ => some ((j.get? "issues").getD (jarr []))
    | _ => none

/-- The events produced by one per-issue pass (empty when the pass raises,
in which case the process dies before publishing anything). -/
def pass_events (ctx : Ctx) (now : Int) (updates : Updates) (issue : JVal) : List Evt :=
  match process_one ctx now updates issue with
  | .ok (_, t) => t.events
  | .error _ => []

/-- The `UPDATES` store after one per-issue pass (unchanged when the pass
raises, since the process dies). -/
def pass_updates (ctx : Ctx) (now : Int) (updates : Updates) (issue : JVal) : Updates :=
  match process_one ctx now updates issue with
  | .ok (u, _) => u
  | .error _ => updates

/-- The events accumulated after `parse_changelog` alone. -/
def changelog_events (ctx : Ctx) (t : JiraTicket) : List Evt :=
  match parse_changelog ctx t with
  | .ok t' => t'.events
  | .error _ => []

/-- The numeric value of a decimal digit character. -/
def digitVal? (c : Char) : Option Nat :=
  if c = '0' then some 0 else if c = '1' then some 1 else if c = '2' then some 2
  else if c = '3' then some 3 else if c = '4' then some 4 else if c = '5' then some 5
  else if c = '6' then some 6 else if c = '7' then some 7 else if c = '8' then some 8
  else if c = '9' then some 9 else none

/-- Decimal accumulator over a character list; `none` on any non-digit. -/
def decDigits : List Char → Nat → Option Nat
  | [], acc => some acc
  | c :: rest, acc =>
    match digitVal? c with
    | some d => decDigits rest (acc * 10 + d)
    | none => none

/-- A concrete timestamp format for witnesses: optionally signed decimal
epoch-second strings; anything else is unparsable. -/
def parseEpoch (s : String) : Option Int :=
  match s.data with
  | [] => none
  | c :: rest =>
    if c = '-' then (decDigits rest 0).map (fun n => -(n : Int))
    else (decDigits (c :: rest) 0).map (fun n => (n : Int))

/-- A concrete runtime environment: decimal epoch strings as the timestamp
format, and a positive launch time, as `time.time()` always returns. -/
def ctx0 : Ctx := { parse := parseEpoch, jiraBase := "https://jira/", launchTime := 1000 }

/-- A snapshot of a brand-new issue (created at epoch 980), never observed
before, with no changelog, comments or worklog. -/
def issue1 : JVal := jobj [("key", .str "AB-1"), ("fields", jobj [("created", .str "980")])]

/-- A never-observed issue carrying one history entry newer than the launch
time: a status change at epoch 2000. -/
def issue2 : JVal :=
  jobj [("key", .str "CD-2"),
        ("fields", jobj [("created", .str "50")]),
        ("changelog", jobj [("histories", jarr
          [jobj [("created", .str "2000"),
                 ("author", jobj [("displayName", .str "Alice"), ("name", .str "alice")]),
                 ("items", jarr [jobj [("field", .str "status"),
                                       ("fromString", .str "Open"),
                                       ("toString", .str "Closed")]])]])])]

/-- An issue, already observed at watermark 5, with three comments at
epochs 10, 25 and 17 (in that order). -/
def issue3 : JVal :=
  jobj [("key", .str "AB-1"),
        ("fields", jobj
          [("created", .str "2"),
           ("comment", jobj [("comments", jarr
             [jobj [("created", .str "10"), ("body", .str "a")],
              jobj [("created", .str "25"), ("body", .str "b")],
              jobj [("created", .str "17"), ("body", .str "c")]])])])]

/-- An issue whose only comment has a `creator` but no `author` and is
newer than the watermark, so `make_event_dict` rewrites it in place. -/
def issue7 : JVal :=
  jobj [("key", .str "K-1"),
        ("fields", jobj
          [("created", .str "10"),
           ("comment", jobj [("comments", jarr
             [jobj [("created", .str "2000"),
                    ("creator", jobj [("displayName", .str "Ada"), ("name", .str "ada")]),
                    ("body", .str "hi")]])])])]

/-- An observed issue with one qualifying history entry changing the
resolution from Fixed to Duplicate. -/
def issue9 : JVal :=
  jobj [("key", .str "K-9"),
        ("fields", jobj [("created", .str "2")]),
        ("changelog", jobj [("histories", jarr
          [jobj [("created", .str "10"),
                 ("author", jobj [("displayName", .str "Bob"), ("name", .str "bob")]),
                 ("items", jarr [jobj [("field", .str "resolution"),
                                       ("fromString", .str "Fixed"),
                                       ("toString", .str "Duplicate")]])]])])]

/-- All events in a list are strictly newer than the watermark `lu`. -/
def evtsAbove (lu : Int) (evs : List Evt) : Prop :=
  ∀ e ∈ evs, ∃ n, alistGet? e "timestamp" = some (JVal.int n) ∧ lu < n

/-- All stored watermark values are positive. -/
def storePos (updates : Updates) : Prop :=
  ∀ k v, alistGet? updates k = some v → 0 < v

/-- Decidable check that every event timestamp is strictly above `c`. -/
def allAbove (c : Int) (evs : List Evt) : Bool :=
  evs.all (fun e =>
    match alistGet? e "timestamp" with
    | some (.int n) => decide (c < n)
    | _ => false)

/-- The `UPDATES` store after a whole poll cycle (unchanged when the cycle
raises, since the process dies). -/
def cycle_updates (ctx : Ctx) (now : Int) (updates : Updates) (issues : List JVal) : Updates :=
  match process_changes ctx now updates issues with
  | .ok (u, _) => u
  | .error _ => updates

/-- A ticket as built by `__init__` for witnesses: watermark 5. -/
def t4w : JiraTicket :=
  { key := "T-4", link := "https://jira/T-4", summary := .str "s", created := 1,
    last_update := 5, events := [], json_data := jobj [] }

/-- A sub-record with a `creator` but no `author`, newer than watermark 5. -/
def entry7 : JVal :=
  jobj [("created", .str "2000"),
        ("creator", jobj [("displayName", .str "Ada"), ("name", .str "ada")]),
        ("body", .str "hi")]

/-- A ticket (watermark 5) whose snapshot holds one qualifying history
entry with a single resolution item, for the claim C8 witness. -/
def res_ticket (fv : JVal) (toS : String) : JiraTicket :=
  { key := "K-8", link := "https://jira/K-8", summary := .str "s", created := 2,
    last_update := 5, events := [],
    json_data := jobj [("changelog", jobj [("histories", jarr
      [jobj [("created", .str "10"), ("author", jobj []),
             ("items", jarr [jobj [("field", .str "resolution"),
                                   ("fromString", fv), ("toString", .str toS)]])]])])] }

/-- A well-formed snapshot whose single comment lacks a creation time. -/
def issue10 : JVal :=
  jobj [("key", .str "T-10"),
        ("fields", jobj
          [("created", .str "2"),
           ("comment", jobj [("comments", jarr [jobj [("body", .str "no created")]])])])]

@[simp] theorem JFields_toL_ofL (l : List (String × JVal)) : (JFields.ofL l).toL = l := by
  induction l with
  | nil => rfl
  | cons p rest ih => cases p; simp [JFields.ofL, JFields.toL, ih]

@[simp] theorem JList_toL_ofL (l : List JVal) : (JList.ofL l).toL = l := by
  induction l with
  | nil => rfl
  | cons v rest ih => simp [JList.ofL, JList.toL, ih]

theorem alistGet?_alistSet_self {α : Type} (l : List (String × α)) (key : String) (v : α) :
    alistGet? (alistSet l key v) key = some v := by
  induction l with
  | nil => simp [alistSet, alistGet?]
  | cons p rest ih =>
    obtain ⟨k, w⟩ := p
    by_cases h : k = key
    · simp [alistSet, h, alistGet?]
    · simp [alistSet, h, alistGet?, ih]

theorem alistGet?_alistSet_ne {α : Type} (l : List (String × α)) (key key' : String) (v : α)
    (h : key ≠ key') : alistGet? (alistSet l key v) key' = alistGet? l key' := by
  induction l with
  | nil => simp [alistSet, alistGet?, h]
  | cons p rest ih =>
    obtain ⟨k, w⟩ := p
    by_cases hk : k = key
    · subst hk; simp [alistSet, alistGet?, h]
    · simp [alistSet, hk, alistGet?, ih]

theorem ts_set_ne (base : Evt) (k : String) (v : JVal) (h : k ≠ "timestamp") :
    alistGet? (alistSet base k v) "timestamp" = alistGet? base "timestamp" :=
  alistGet?_alistSet_ne base k "timestamp" v h

@[simp] theorem ts_set_action (base : Evt) (v : JVal) :
    alistGet? (alistSet base "action" v) "timestamp" = alistGet? base "timestamp" :=
  ts_set_ne base "action" v (by decide)

@[simp] theorem ts_set_resolution (base : Evt) (v : JVal) :
    alistGet? (alistSet base "resolution" v) "timestamp" = alistGet? base "timestamp" :=
  ts_set_ne base "resolution" v (by decide)

@[simp] theorem ts_set_from (base : Evt) (v : JVal) :
    alistGet? (alistSet base "from" v) "timestamp" = alistGet? base "timestamp" :=
  ts_set_ne base "from" v (by decide)

@[simp] theorem ts_set_to (base : Evt) (v : JVal) :
    alistGet? (alistSet base "to" v) "timestamp" = alistGet? base "timestamp" :=
  ts_set_ne base "to" v (by decide)

@[simp] theorem ts_set_text (base : Evt) (v : JVal) :
    alistGet? (alistSet base "action_human_text" v) "timestamp" = alistGet? base "timestamp" :=
  ts_set_ne base "action_human_text" v (by decide)

@[simp] theorem ts_set_body (base : Evt) (v : JVal) :
    alistGet? (alistSet base "body" v) "timestamp" = alistGet? base "timestamp" :=
  ts_set_ne base "body" v (by decide)

@[simp] theorem ts_set_timespent (base : Evt) (v : JVal) :
    alistGet? (alistSet base "timespent" v) "timestamp" = alistGet? base "timestamp" :=
  ts_set_ne base "timespent" v (by decide)

@[simp] theorem ts_set_description (base : Evt) (v : JVal) :
    alistGet? (alistSet base "description" v) "timestamp" = alistGet? base "timestamp" :=
  ts_set_ne base "description" v (by decide)

/-- A qualifying base event carries the effective timestamp, and that
timestamp is strictly newer than the watermark of the ticket. -/
theorem make_event_dict_ts (ctx : Ctx) (t : JiraTicket) (entry e' : JVal) (b : Evt)
    (h : make_event_dict ctx t entry = .ok (e', some b)) :
    ∃ n, alistGet? b "timestamp" = some (JVal.int n) ∧ t.last_update < n := by
  unfold make_event_dict at h
  split at h
  · simp at h
  · rename_i cv hc
    split at h
    · simp at h
    · rename_i n hd
      split at h
      · simp at h
      · rename_i hle
        split at h
        · simp at h
        · rename_i an au ha
          split at h
          · simp at h
          · rename_i bec hb
            simp only [Except.ok.injEq, Prod.mk.injEq, Option.some.injEq] at h
            obtain ⟨-, hbv⟩ := h
            subst hbv
            exact ⟨n, rfl, lt_of_not_le hle⟩

/-- `make_event_dict` returns the entry unchanged except for the
author-from-creator rewrite. -/
theorem make_event_dict_entry (ctx : Ctx) (t : JiraTicket) (entry e' : JVal)
    (o : Option Evt) (h : make_event_dict ctx t entry = .ok (e', o)) :
    e' = entry ∨
      ((entry.get? "author").isNone = true ∧ (entry.get? "creator").isSome = true ∧
       e' = jSet entry "author" ((entry.get? "creator").getD .null)) := by
  unfold make_event_dict at h
  split at h
  · left; simp only [Except.ok.injEq, Prod.mk.injEq] at h; exact h.1.symm
  · split at h
    · simp at h
    · split at h
      · left; simp only [Except.ok.injEq, Prod.mk.injEq] at h; exact h.1.symm
      · split at h
        · simp at h
        · split at h
          · simp at h
          · simp only [Except.ok.injEq, Prod.mk.injEq] at h
            obtain ⟨h1, -⟩ := h
            unfold rewrite_author at h1
            by_cases hcond : ((entry.get? "author").isNone && (entry.get? "creator").isSome) = true
            · right
              rw [if_pos hcond] at h1
              obtain ⟨ha, hc⟩ := Bool.and_eq_true_iff.mp hcond
              exact ⟨ha, hc, h1.symm⟩
            · left; rw [if_neg hcond] at h1; exact h1.symm

/-- A sub-record without a creation time yields no candidate and no error. -/
theorem make_event_dict_none (ctx : Ctx) (t : JiraTicket) (entry : JVal)
    (hc : entry.get? "created" = none) :
    make_event_dict ctx t entry = .ok (entry, none) := by
  unfold make_event_dict
  rw [hc]

/-- A sub-record whose effective time is at most the watermark yields no
candidate and no error. -/
theorem make_event_dict_stale (ctx : Ctx) (t : JiraTicket) (entry cv : JVal) (n : Int)
    (hc : entry.get? "created" = some cv)
    (hd : jira_to_datetime ctx ((entry.get? "updated").getD cv) = .ok n)
    (hle : n ≤ t.last_update) :
    make_event_dict ctx t entry = .ok (entry, none) := by
  unfold make_event_dict
  rw [hc]
  simp only [hd, if_pos hle]

/-- A well-formed sub-record whose effective time beats the watermark
yields exactly the base event dict of `make_event_dict`. -/
theorem make_event_dict_fresh (ctx : Ctx) (t : JiraTicket) (entry cv : JVal)
    (n bec : Int) (an au : JVal)
    (hc : entry.get? "created" = some cv)
    (hd : jira_to_datetime ctx ((entry.get? "updated").getD cv) = .ok n)
    (ha : author_pair (rewrite_author entry) = .ok (an, au))
    (hb : jira_to_datetime ctx cv = .ok bec)
    (hgt : t.last_update < n) :
    make_event_dict ctx t entry =
      .ok (rewrite_author entry,
           some [("key", .str t.key), ("link", .str t.link), ("summary", t.summary),
                 ("project", .str (projectOf t.key)), ("action", .str "unknown"),
                 ("author", an), ("author_uid", au),
                 ("timestamp", .int n), ("base_entry_created", .int bec)]) := by
  unfold make_event_dict
  rw [hc]
  simp only [hd, if_neg (not_le.mpr hgt), ha, hb]

/-- Every event built by the per-item dispatch keeps the timestamp of the
base event it copies. -/
theorem classify_item_ts (link key : String) (lu : Int) (base : Evt) (item : JVal)
    (e : Evt) (he : e ∈ classify_item link key lu base item) :
    alistGet? e "timestamp" = alistGet? base "timestamp" := by
  unfold classify_item at he
  split at he
  · split_ifs at he <;> simp_all
  · exact absurd he (List.not_mem_nil e)

/-- Every event produced by the changelog loop is strictly newer than the
watermark. -/
theorem changelog_go_events (ctx : Ctx) (t : JiraTicket) :
    ∀ l l' evs, changelog_go ctx t l = .ok (l', evs) → evtsAbove t.last_update evs := by
  intro l
  induction l with
  | nil =>
    intro l' evs h
    unfold changelog_go at h
    simp only [Except.ok.injEq, Prod.mk.injEq] at h
    obtain ⟨-, h2⟩ := h
    subst h2
    intro e he
    exact absurd he (List.not_mem_nil e)
  | cons change rest ih =>
    intro l' evs h
    unfold changelog_go at h
    split at h
    · simp at h
    · rename_i change' evOpt hm
      split at h
      · split at h
        · simp at h
        · rename_i rest' evs0 hrest
          simp only [Except.ok.injEq, Prod.mk.injEq] at h
          obtain ⟨-, h2⟩ := h
          subst h2
          exact ih rest' evs0 hrest
      · rename_i base
        split at h
        · simp at h
        · rename_i itemsV hitems
          split at h
          · simp at h
          · rename_i items hasarr
            split at h
            · simp at h
            · rename_i rest' evs0 hrest
              simp only [Except.ok.injEq, Prod.mk.injEq] at h
              obtain ⟨-, h2⟩ := h
              subst h2
              intro e he
              rcases List.mem_append.mp he with hfl | h0
              · obtain ⟨l0, hl0, hel0⟩ := List.mem_flatten.mp hfl
                obtain ⟨item, -, hmap⟩ := List.mem_map.mp hl0
                subst hmap
                obtain ⟨n, hts, hlt⟩ := make_event_dict_ts ctx t change change' base hm
                exact ⟨n, by rw [classify_item_ts t.link t.key t.last_update base item e hel0]; exact hts, hlt⟩
              · exact ih rest' evs0 hrest e h0

/-- Every event produced by the comments loop is strictly newer than the
watermark. -/
theorem comments_go_events (ctx : Ctx) (t : JiraTicket) :
    ∀ l l' evs, comments_go ctx t l = .ok (l', evs) → evtsAbove t.last_update evs := by
  intro l
  induction l with
  | nil =>
    intro l' evs h
    unfold comments_go at h
    simp only [Except.ok.injEq, Prod.mk.injEq] at h
    obtain ⟨-, h2⟩ := h
    subst h2
    intro e he
    exact absurd he (List.not_mem_nil e)
  | cons c rest ih =>
    intro l' evs h
    unfold comments_go at h
    split at h
    · simp at h
    · rename_i c' evOpt hm
      split at h
      · split at h
        · simp at h
        · rename_i rest' evs0 hrest
          simp only [Except.ok.injEq, Prod.mk.injEq] at h
          obtain ⟨-, h2⟩ := h
          subst h2
          exact ih rest' evs0 hrest
      · rename_i base
        split at h
        · split at h
          · split at h
            · simp at h
            · rename_i body hbody
              split at h
              · simp at h
              · rename_i rest' evs0 hrest
                simp only [Except.ok.injEq, Prod.mk.injEq] at h
                obtain ⟨-, h2⟩ := h
                subst h2
                intro e he
                rcases List.mem_cons.mp he with rfl | h0
                · obtain ⟨n, hts, hlt⟩ := make_event_dict_ts ctx t c c' base hm
                  exact ⟨n, by simp [hts], hlt⟩
                · exact ih rest' evs0 hrest e h0
          · split at h
            · simp at h
            · rename_i rest' evs0 hrest
              simp only [Except.ok.injEq, Prod.mk.injEq] at h
              obtain ⟨-, h2⟩ := h
              subst h2
              exact ih rest' evs0 hrest
        · split at h
          · split at h
            · simp at h
            · rename_i body hbody
              split at h
              · simp at h
              · rename_i rest' evs0 hrest
                simp only [Except.ok.injEq, Prod.mk.injEq] at h
                obtain ⟨-, h2⟩ := h
                subst h2
                intro e he
                rcases List.mem_cons.mp he with rfl | h0
                · obtain ⟨n, hts, hlt⟩ := make_event_dict_ts ctx t c c' base hm
                  exact ⟨n, by simp [hts], hlt⟩
                · exact ih rest' evs0 hrest e h0
          · split at h
            · simp at h
            · rename_i rest' evs0 hrest
              simp only [Except.ok.injEq, Prod.mk.injEq] at h
              obtain ⟨-, h2⟩ := h
              subst h2
              exact ih rest' evs0 hrest

/-- Every event produced by the worklog loop is strictly newer than the
watermark. -/
theorem worklog_go_events (ctx : Ctx) (t : JiraTicket) :
    ∀ l l' evs, worklog_go ctx t l = .ok (l', evs) → evtsAbove t.last_update evs := by
  intro l
  induction l with
  | nil =>
    intro l' evs h
    unfold worklog_go at h
    simp only [Except.ok.injEq, Prod.mk.injEq] at h
    obtain ⟨-, h2⟩ := h
    subst h2
    intro e he
    exact absurd he (List.not_mem_nil e)
  | cons w rest ih =>
    intro l' evs h
    unfold worklog_go at h
    split at h
    · simp at h
    · rename_i w' evOpt hm
      split at h
      · split at h
        · simp at h
        · rename_i rest' evs0 hrest
          simp only [Except.ok.injEq, Prod.mk.injEq] at h
          obtain ⟨-, h2⟩ := h
          subst h2
          exact ih rest' evs0 hrest
      · rename_i base
        split at h
        · split at h
          · split at h
            · simp at h
            · rename_i body hbody
              split at h
              · simp at h
              · rename_i spent hspent
                split at h
                · simp at h
                · rename_i rest' evs0 hrest
                  simp only [Except.ok.injEq, Prod.mk.injEq] at h
                  obtain ⟨-, h2⟩ := h
                  subst h2
                  intro e he
                  rcases List.mem_cons.mp he with rfl | h0
                  · obtain ⟨n, hts, hlt⟩ := make_event_dict_ts ctx t w w' base hm
                    exact ⟨n, by simp [hts], hlt⟩
                  · exact ih rest' evs0 hrest e h0
          · split at h
            · simp at h
            · rename_i rest' evs0 hrest
              simp only [Except.ok.injEq, Prod.mk.injEq] at h
              obtain ⟨-, h2⟩ := h
              subst h2
              exact ih rest' evs0 hrest
        · split at h
          · split at h
            · simp at h
            · rename_i body hbody
              split at h
              · simp at h
              · rename_i spent hspent
                split at h
                · simp at h
                · rename_i rest' evs0 hrest
                  simp only [Except.ok.injEq, Prod.mk.injEq] at h
                  obtain ⟨-, h2⟩ := h
                  subst h2
                  intro e he
                  rcases List.mem_cons.mp he with rfl | h0
                  · obtain ⟨n, hts, hlt⟩ := make_event_dict_ts ctx t w w' base hm
                    exact ⟨n, by simp [hts], hlt⟩
                  · exact ih rest' evs0 hrest e h0
          · split at h
            · simp at h
            · rename_i rest' evs0 hrest
              simp only [Except.ok.injEq, Prod.mk.injEq] at h
              obtain ⟨-, h2⟩ := h
              subst h2
              exact ih rest' evs0 hrest

theorem evtsAbove_nil (lu : Int) : evtsAbove lu [] :=
  fun e he => absurd he (List.not_mem_nil e)

theorem evtsAbove_append (lu : Int) (a b : List Evt)
    (ha : evtsAbove lu a) (hb : evtsAbove lu b) : evtsAbove lu (a ++ b) := by
  intro e he
  rcases List.mem_append.mp he with h | h
  · exact ha e h
  · exact hb e h

/-- `parse_changelog` only appends events, all strictly newer than the
watermark, and leaves every other ticket attribute unchanged. -/
theorem parse_changelog_spec (ctx : Ctx) (t t' : JiraTicket)
    (h : parse_changelog ctx t = .ok t') :
    (∃ new, t'.events = t.events ++ new ∧ evtsAbove t.last_update new) ∧
    t'.key = t.key ∧ t'.link = t.link ∧ t'.summary = t.summary ∧
    t'.created = t.created ∧ t'.last_update = t.last_update := by
  unfold parse_changelog at h
  split at h
  · simp at h
  · rename_i elements helems
    split at h
    · simp at h
    · rename_i elements' evs hgo
      simp only [Except.ok.injEq] at h
      subst h
      exact ⟨⟨evs, rfl, changelog_go_events ctx t elements elements' evs hgo⟩,
             rfl, rfl, rfl, rfl, rfl⟩

/-- `parse_comments` only appends events, all strictly newer than the
watermark, and leaves every other ticket attribute unchanged. -/
theorem parse_comments_spec (ctx : Ctx) (t t' : JiraTicket)
    (h : parse_comments ctx t = .ok t') :
    (∃ new, t'.events = t.events ++ new ∧ evtsAbove t.last_update new) ∧
    t'.key = t.key ∧ t'.link = t.link ∧ t'.summary = t.summary ∧
    t'.created = t.created ∧ t'.last_update = t.last_update := by
  unfold parse_comments at h
  split at h
  · simp at h
  · rename_i fields hf
    split at h
    · simp at h
    · rename_i elements helems
      split at h
      · simp at h
      · rename_i elements' evs hgo
        simp only [Except.ok.injEq] at h
        subst h
        exact ⟨⟨evs, rfl, comments_go_events ctx t elements elements' evs hgo⟩,
               rfl, rfl, rfl, rfl, rfl⟩

/-- `parse_worklog` only appends events, all strictly newer than the
watermark, and leaves every other ticket attribute unchanged. -/
theorem parse_worklog_spec (ctx : Ctx) (t t' : JiraTicket)
    (h : parse_worklog ctx t = .ok t') :
    (∃ new, t'.events = t.events ++ new ∧ evtsAbove t.last_update new) ∧
    t'.key = t.key ∧ t'.link = t.link ∧ t'.summary = t.summary ∧
    t'.created = t.created ∧ t'.last_update = t.last_update := by
  unfold parse_worklog at h
  split at h
  · simp at h
  · rename_i fields hf
    split at h
    · simp at h
    · rename_i elements helems
      split at h
      · simp at h
      · rename_i elements' evs hgo
        simp only [Except.ok.injEq] at h
        subst h
        exact ⟨⟨evs, rfl, worklog_go_events ctx t elements elements' evs hgo⟩,
               rfl, rfl, rfl, rfl, rfl⟩

/-- What `JiraTicket.__init__` guarantees about the ticket it builds. -/
theorem init_spec (ctx : Ctx) (updates : Updates) (j : JVal) (t0 : JiraTicket)
    (h : JiraTicket.init ctx updates j = .ok t0) :
    t0.events = [] ∧ t0.last_update = (alistGet? updates t0.key).getD ctx.launchTime ∧
    t0.json_data = j := by
  unfold JiraTicket.init at h
  split at h
  · simp at h
  · rename_i keyV hk
    split at h
    · rename_i key
      split at h
      · simp at h
      · rename_i fields hf
        split at h
        · simp at h
        · rename_i createdV hc
          split at h
          · simp at h
          · rename_i created hd
            simp only [Except.ok.injEq] at h
            subst h
            exact ⟨rfl, rfl, rfl⟩
    · simp at h

/-- What the brand-new-issue branch guarantees: attributes preserved,
events only appended (and strictly newer than the watermark), and the
store either untouched or seeded under the zero-watermark condition. -/
theorem create_step_spec (ctx : Ctx) (now : Int) (updates : Updates) (issue : JVal)
    (t : JiraTicket) (u1 : Updates) (t1 : JiraTicket)
    (h : create_step ctx now updates issue t = .ok (u1, t1)) :
    t1.key = t.key ∧ t1.link = t.link ∧ t1.summary = t.summary ∧
    t1.created = t.created ∧ t1.last_update = t.last_update ∧
    (∃ new, t1.events = t.events ++ new ∧ evtsAbove t.last_update new) ∧
    ((u1 = updates ∧ t1.events = t.events) ∨
     (t.last_update = 0 ∧ u1 = alistSet updates t.key t.created ∧
      ∃ ev, t1.events = t.events ++ [ev])) := by
  unfold create_step at h
  split at h
  · rename_i hcond
    split at h
    · simp at h
    · rename_i fields hf
      split at h
      · simp at h
      · simp at h
      · rename_i fields' base hm
        simp only [Except.ok.injEq, Prod.mk.injEq] at h
        obtain ⟨h1, h2⟩ := h
        subst h1
        subst h2
        refine ⟨rfl, rfl, rfl, rfl, rfl, ⟨[_], rfl, ?_⟩, Or.inr ⟨hcond.1, rfl, _, rfl⟩⟩
        intro e he
        rcases List.mem_cons.mp he with rfl | h0
        · obtain ⟨n, hts, hlt⟩ := make_event_dict_ts ctx t fields fields' base hm
          exact ⟨n, by simp [hts], hlt⟩
        · exact absurd h0 (List.not_mem_nil e)
  · simp only [Except.ok.injEq, Prod.mk.injEq] at h
    obtain ⟨h1, h2⟩ := h
    subst h1
    subst h2
    exact ⟨rfl, rfl, rfl, rfl, rfl, ⟨[], by simp, evtsAbove_nil _⟩, Or.inl ⟨rfl, rfl⟩⟩

theorem foldl_max_ge (l : List Evt) (a : Int) :
    a ≤ l.foldl (fun acc x => max acc (evtTs x)) a := by
  induction l generalizing a with
  | nil => simp
  | cons x rest ih =>
    rw [List.foldl_cons]
    exact le_trans (le_max_left a (evtTs x)) (ih (max a (evtTs x)))

theorem foldl_max_mem (l : List Evt) (a : Int) :
    l.foldl (fun acc x => max acc (evtTs x)) a = a ∨
      l.foldl (fun acc x => max acc (evtTs x)) a ∈ l.map evtTs := by
  induction l generalizing a with
  | nil => left; rfl
  | cons x rest ih =>
    rw [List.foldl_cons]
    rcases ih (max a (evtTs x)) with h | h
    · rw [h]
      rcases max_choice a (evtTs x) with h2 | h2
      · left; exact h2
      · right; rw [h2, List.map_cons]; exact List.mem_cons_self _ _
    · right; rw [List.map_cons]; exact List.mem_cons_of_mem _ h

theorem foldl_max_elem (l : List Evt) :
    ∀ a e, e ∈ l → evtTs e ≤ l.foldl (fun acc x => max acc (evtTs x)) a := by
  induction l with
  | nil => intro a e he; cases he
  | cons x rest ih =>
    intro a e he
    rw [List.foldl_cons]
    rcases List.mem_cons.mp he with rfl | h
    · exact le_trans (le_max_right a (evtTs e)) (foldl_max_ge rest _)
    · exact ih _ e h

/-- `maxTs` of a nonempty events list is one of the event timestamps. -/
theorem maxTs_mem (evs : List Evt) (h : evs ≠ []) : maxTs evs ∈ evs.map evtTs := by
  cases evs with
  | nil => exact absurd rfl h
  | cons e rest =>
    simp only [maxTs]
    rcases foldl_max_mem rest (evtTs e) with h2 | h2
    · rw [h2, List.map_cons]; exact List.mem_cons_self _ _
    · rw [List.map_cons]; exact List.mem_cons_of_mem _ h2

/-- `maxTs` dominates every event timestamp in the list. -/
theorem maxTs_ge (evs : List Evt) (e : Evt) (he : e ∈ evs) : evtTs e ≤ maxTs evs := by
  cases evs with
  | nil => cases he
  | cons x rest =>
    simp only [maxTs]
    rcases List.mem_cons.mp he with rfl | h
    · exact foldl_max_ge rest _
    · exact foldl_max_elem rest _ e h

/-- If every event beats the watermark, so does the maximum timestamp. -/
theorem evtsAbove_maxTs (lu : Int) (evs : List Evt)
    (ha : evtsAbove lu evs) (hne : evs ≠ []) : lu < maxTs evs := by
  obtain ⟨e, he, heq⟩ := List.mem_map.mp (maxTs_mem evs hne)
  obtain ⟨n, hts, hlt⟩ := ha e he
  have hn : evtTs e = n := by unfold evtTs; rw [hts]
  rw [← heq, hn]
  exact hlt

/-- The per-issue pass: the resulting ticket keeps the key and watermark
computed by `__init__`, all its events are strictly newer than that
watermark, and the store is unchanged when no event was produced, else the
key maps to the maximum event timestamp and no other key changes. -/
theorem process_one_spec (ctx : Ctx) (now : Int) (updates : Updates) (issue : JVal)
    (u' : Updates) (t' : JiraTicket)
    (h : process_one ctx now updates issue = .ok (u', t')) :
    ∃ t0, JiraTicket.init ctx updates issue = .ok t0 ∧
      t'.key = t0.key ∧ t'.last_update = t0.last_update ∧
      evtsAbove t0.last_update t'.events ∧
      (t'.events = [] → u' = updates) ∧
      (t'.events ≠ [] →
        alistGet? u' t'.key = some (maxTs t'.events) ∧
        ∀ k, k ≠ t'.key → alistGet? u' k = alistGet? updates k) := by
  unfold process_one at h
  split at h
  · simp at h
  · rename_i t0 hinit
    split at h
    · simp at h
    · rename_i u1 t1 hcreate
      split at h
      · simp at h
      · rename_i t2 hcl
        split at h
        · simp at h
        · rename_i t3 hcm
          split at h
          · simp at h
          · rename_i t4 hwl
            simp only [Except.ok.injEq, Prod.mk.injEq] at h
            obtain ⟨h1, h2⟩ := h
            subst h2
            obtain ⟨ck, -, -, -, clu, ⟨newc, hevc, habovec⟩, hdisj⟩ :=
              create_step_spec ctx now updates issue t0 u1 t1 hcreate
            obtain ⟨⟨n1, he1, ha1⟩, k1, -, -, -, lu1⟩ := parse_changelog_spec ctx t1 t2 hcl
            obtain ⟨⟨n2, he2, ha2⟩, k2, -, -, -, lu2⟩ := parse_comments_spec ctx t2 t3 hcm
            obtain ⟨⟨n3, he3, ha3⟩, k3, -, -, -, lu3⟩ := parse_worklog_spec ctx t3 t4 hwl
            have hkey : t4.key = t0.key := by rw [k3, k2, k1, ck]
            have hlu : t4.last_update = t0.last_update := by rw [lu3, lu2, lu1, clu]
            have hev0 : t0.events = [] := (init_spec ctx updates issue t0 hinit).1
            have hevall : t4.events = ((t0.events ++ newc ++ n1) ++ n2) ++ n3 := by
              rw [he3, he2, he1, hevc]
            have habove : evtsAbove t0.last_update t4.events := by
              rw [hevall]
              refine evtsAbove_append _ _ _ (evtsAbove_append _ _ _ ?_ ?_) ?_
              · refine evtsAbove_append _ _ _ (evtsAbove_append _ _ _ ?_ habovec) ?_
                · rw [hev0]; exact evtsAbove_nil _
                · rw [← clu]; exact ha1
              · rw [← clu, ← lu1]; exact ha2
              · rw [← clu, ← lu1, ← lu2]; exact ha3
            refine ⟨t0, hinit, hkey, hlu, habove, ?_, ?_⟩
            · intro hempty
              have hisEmpty : t4.events.isEmpty = true := by
                rw [hempty]; rfl
              rw [← h1, if_pos hisEmpty]
              rcases hdisj with ⟨hu, -⟩ | ⟨-, -, ev, hev⟩
              · exact hu
              · exfalso
                have : t1.events ≠ [] := by
                  rw [hev, hev0]; simp
                have ht4 : t4.events = t1.events ++ n1 ++ n2 ++ n3 := by
                  rw [he3, he2, he1]
                apply this
                have := hempty
                rw [ht4] at this
                rcases List.append_eq_nil.mp this with ⟨h5, -⟩
                rcases List.append_eq_nil.mp h5 with ⟨h6, -⟩
                exact (List.append_eq_nil.mp h6).1
            · intro hne
              have hisEmpty : t4.events.isEmpty = false := by
                cases hev : t4.events with
                | nil => exact absurd hev hne
                | cons a b => rfl
              rw [← h1, if_neg (by rw [hisEmpty]; exact Bool.false_ne_true)]
              constructor
              · exact alistGet?_alistSet_self u1 t4.key (maxTs t4.events)
              · intro k hk
                rw [alistGet?_alistSet_ne u1 t4.key k (maxTs t4.events) (fun hkk => hk hkk.symm)]
                rcases hdisj with ⟨hu, -⟩ | ⟨-, hu, -⟩
                · rw [hu]
                · rw [hu]
                  refine alistGet?_alistSet_ne updates t0.key k t0.created ?_
                  intro hkk
                  exact hk (by rw [hkey, ← hkk])

/-- Claim C1, evaluated at the failing input: `issue1` was never observed
(the store is empty, so its watermark is the never-observed default, the
launch time 1000) and was created at epoch 980, within 30 seconds of the
current time 990 — yet the pass synthesizes no `create` event and leaves
the store empty, because the brand-new-issue branch tests
`last_update == 0` while the never-observed watermark is the positive
launch time. -/
theorem claim_C1_no_create_event :
    alistGet? ([] : Updates) "AB-1" = none ∧
    tdSeconds (990 - 980) ≤ 30 ∧
    (process_one ctx0 990 [] issue1).map (fun p => (p.1, p.2.events)) = .ok ([], []) :=
  ⟨rfl, by decide, by decide⟩

/-- Claim C2 counterexample: `issue2` was never observed (empty store, so
its watermark is the never-observed default, the launch time 1000), yet
the pass emits one `status` history event (its change epoch 2000 beats the
launch time) and advances the watermark — refuting the claim that no
history event is emitted while the watermark is at its default. -/
theorem claim_C2_counterexample :
    alistGet? ([] : Updates) "CD-2" = none ∧
    (process_one ctx0 2100 [] issue2).map
      (fun p => (p.1, p.2.events.map (fun e => alistGet? e "action"))) =
      .ok ([("CD-2", 2000)], [some (.str "status")]) :=
  ⟨rfl, by decide⟩

/-- Claim C6, evaluated at the failing input: a transport failure does
yield an empty sequence, but a decoded response that is valid JSON and not
a dictionary (here a top-level list) makes `fetch_changes` fall off the
end of its `AssertionError` handler and return Python `None`, not a
sequence; the poll cycle then dies iterating `None`. -/
theorem claim_C6_fetch_returns_none :
    fetch_changes .transportError = some (jarr []) ∧
    fetch_changes (.response (jarr [])) = none ∧
    fetch_changes (.response (jobj [("issues", jarr [issue1])])) = some (jarr [issue1]) :=
  ⟨by decide, by decide, by decide⟩

/-- Claim C7 counterexample: processing `issue7`, whose only comment has a
`creator` but no `author`, returns a ticket whose snapshot differs from
the input snapshot — `make_event_dict` wrote the author into the comment
in place, so the pass is not read-only on the `IssueSnapshot`. -/
theorem claim_C7_counterexample :
    (process_one ctx0 2100 [] issue7).map
      (fun p => decide (p.2.json_data = issue7)) = .ok false := by
  decide

/-- Claim C9, evaluated at the failing input: a qualifying resolution
change from Fixed to Duplicate produces exactly one event whose rendered
sentence is the truncated string `changed the resolution of ... from ` —
it contains neither the old nor the new resolution value, because the
second line of the f-string in the source is a separate discarded
expression statement. -/
theorem claim_C9_truncated_resolution_text :
    (process_one ctx0 100 [("K-9", 5)] issue9).map
      (fun p => p.2.events.map (fun e => alistGet? e "action_human_text")) =
      .ok [some (.str "changed the resolution of <https://jira/K-9|K-9> from ")] ∧
    ¬ List.IsInfix "Fixed".data ("changed the resolution of <https://jira/K-9|K-9> from ").data ∧
    ¬ List.IsInfix "Duplicate".data ("changed the resolution of <https://jira/K-9|K-9> from ").data :=
  ⟨by decide, by decide, by decide⟩

theorem evtsAbove_allAbove (c : Int) (evs : List Evt) (h : evtsAbove c evs) :
    allAbove c evs = true := by
  unfold allAbove
  rw [List.all_eq_true]
  intro e he
  obtain ⟨n, hts, hlt⟩ := h e he
  rw [hts]
  exact decide_eq_true hlt

/-- Claim C2 amended: while the watermark of an issue is still at its
never-observed default (the launch time), history, comment and worklog
events are not suppressed wholesale; exactly the sub-records whose
effective time is at most the launch time are withheld — every event the
pass emits for a never-observed issue is strictly newer than the launch
time (the `last_update > 0` guard is vacuous because the launch time is
positive). -/
theorem claim_C2_amended (ctx : Ctx) (now : Int) (updates : Updates) (issue : JVal)
    (hstore : ∀ k, alistGet? updates k = none) :
    allAbove ctx.launchTime (pass_events ctx now updates issue) = true := by
  unfold pass_events
  split
  · rename_i u' t' hp
    obtain ⟨t0, hinit, -, hlu, habove, -, -⟩ :=
      process_one_spec ctx now updates issue u' t' hp
    have hlu0 : t0.last_update = ctx.launchTime := by
      rw [(init_spec ctx updates issue t0 hinit).2.1, hstore t0.key]
      rfl
    refine evtsAbove_allAbove _ _ ?_
    rw [← hlu0]
    exact habove
  · rfl

/-- Witness for the amended claim C2 at a concrete never-observed issue:
the pass emits a (nonempty) batch of events, all newer than the launch
time 1000. -/
theorem claim_C2_amended_witness :
    pass_events ctx0 2100 [] issue2 ≠ [] ∧
    allAbove 1000 (pass_events ctx0 2100 [] issue2) = true :=
  ⟨by decide, claim_C2_amended ctx0 2100 [] issue2 (fun k => rfl)⟩

/-- Claim C3: after one per-issue pass, if at least one event was produced
the stored watermark for the key equals the maximum event timestamp
(an element of the timestamps that dominates all of them, hence is
order-independent); if no event was produced the store is unchanged. -/
theorem claim_C3_watermark_advance (ctx : Ctx) (now : Int) (updates : Updates)
    (issue : JVal) (u' : Updates) (t' : JiraTicket)
    (h : process_one ctx now updates issue = .ok (u', t')) :
    (t'.events ≠ [] →
      alistGet? u' t'.key = some (maxTs t'.events) ∧
      maxTs t'.events ∈ t'.events.map evtTs ∧
      ∀ x ∈ t'.events.map evtTs, x ≤ maxTs t'.events) ∧
    (t'.events = [] → u' = updates) := by
  obtain ⟨t0, -, -, -, -, hempty, hne⟩ := process_one_spec ctx now updates issue u' t' h
  constructor
  · intro hev
    refine ⟨(hne hev).1, maxTs_mem _ hev, ?_⟩
    intro x hx
    obtain ⟨e, he, rfl⟩ := List.mem_map.mp hx
    exact maxTs_ge _ e he
  · exact hempty

/-- Witness for claim C3: the spec example — events with timestamps
10, 25, 17 advance the watermark to exactly 25. -/
theorem claim_C3_watermark_advance_witness :
    pass_events ctx0 100 [("AB-1", 5)] issue3 ≠ [] ∧
    alistGet? (pass_updates ctx0 100 [("AB-1", 5)] issue3) "AB-1" = some 25 := by
  refine ⟨by decide, ?_⟩
  have h := claim_C3_watermark_advance ctx0 100 [("AB-1", 5)] issue3 _ _ rfl
  exact (h.1 (by decide)).1

/-- Claim C4: a sub-record without a creation time yields no candidate
(and no error); otherwise its effective time is its update time when
present, else its creation time (the argument of `jira_to_datetime`
below), and it yields a candidate carrying that effective time exactly
when the effective time is strictly greater than the watermark. -/
theorem claim_C4_candidate_rule (ctx : Ctx) (t : JiraTicket) :
    (∀ entry, entry.get? "created" = none →
       make_event_dict ctx t entry = .ok (entry, none)) ∧
    (∀ entry cv n an au bec,
       entry.get? "created" = some cv →
       jira_to_datetime ctx ((entry.get? "updated").getD cv) = .ok n →
       author_pair (rewrite_author entry) = .ok (an, au) →
       jira_to_datetime ctx cv = .ok bec →
       ((n ≤ t.last_update → make_event_dict ctx t entry = .ok (entry, none)) ∧
        (t.last_update < n →
          ∃ b, make_event_dict ctx t entry = .ok (rewrite_author entry, some b) ∧
            alistGet? b "timestamp" = some (JVal.int n)))) := by
  constructor
  · exact fun entry hc => make_event_dict_none ctx t entry hc
  · intro entry cv n an au bec hc hd ha hb
    constructor
    · exact fun hle => make_event_dict_stale ctx t entry cv n hc hd hle
    · intro hgt
      exact ⟨_, make_event_dict_fresh ctx t entry cv n bec an au hc hd ha hb hgt, rfl⟩

/-- Witness for claim C4: a sub-record with no creation time yields
nothing; effective time 3 ≤ watermark 5 yields nothing; effective time
10 > 5 yields a candidate stamped 10. -/
theorem claim_C4_candidate_rule_witness :
    make_event_dict ctx0 t4w (jobj [("body", JVal.str "x")]) =
      .ok (jobj [("body", JVal.str "x")], none) ∧
    make_event_dict ctx0 t4w (jobj [("created", JVal.str "3")]) =
      .ok (jobj [("created", JVal.str "3")], none) ∧
    (make_event_dict ctx0 t4w (jobj [("created", JVal.str "10")])).map
      (fun p => (p.1, p.2.map (fun b => alistGet? b "timestamp"))) =
      .ok (jobj [("created", JVal.str "10")], some (some (JVal.int 10))) := by
  have h := claim_C4_candidate_rule ctx0 t4w
  refine ⟨h.1 (jobj [("body", JVal.str "x")]) rfl,
          (h.2 (jobj [("created", JVal.str "3")]) (JVal.str "3") 3
            (.str "??") (.str "??") 3 rfl rfl rfl rfl).1 (by decide), ?_⟩
  obtain ⟨b, hb, hts⟩ := (h.2 (jobj [("created", JVal.str "10")]) (JVal.str "10") 10
    (.str "??") (.str "??") 10 rfl rfl rfl rfl).2 (by decide)
  rw [hb]
  simp only [Except.map, Option.map]
  rw [hts]
  decide

/-- One per-issue pass never decreases any stored watermark and keeps all
stored values positive, provided the launch time is positive (as
`time.time()` guarantees). -/
theorem process_one_mono (ctx : Ctx) (now : Int) (updates : Updates) (issue : JVal)
    (u' : Updates) (t' : JiraTicket)
    (hlaunch : 0 < ctx.launchTime) (hpos : storePos updates)
    (h : process_one ctx now updates issue = .ok (u', t')) :
    (∀ k v, alistGet? updates k = some v → ∃ v', alistGet? u' k = some v' ∧ v ≤ v') ∧
    storePos u' := by
  obtain ⟨t0, hinit, hkey, hlu, habove, hempty, hne⟩ :=
    process_one_spec ctx now updates issue u' t' h
  by_cases hev : t'.events = []
  · rw [hempty hev]
    exact ⟨fun k v hk => ⟨v, hk, le_refl v⟩, hpos⟩
  · obtain ⟨hget, hothers⟩ := hne hev
    have hlu0 : t0.last_update = (alistGet? updates t0.key).getD ctx.launchTime :=
      (init_spec ctx updates issue t0 hinit).2.1
    have hmax : t0.last_update < maxTs t'.events := evtsAbove_maxTs _ _ habove hev
    constructor
    · intro k v hk
      by_cases hkk : k = t'.key
      · subst hkk
        refine ⟨maxTs t'.events, hget, le_of_lt ?_⟩
        have hsto : alistGet? updates t0.key = some v := by rw [← hkey]; exact hk
        have hluv : t0.last_update = v := by rw [hlu0, hsto]; rfl
        exact hluv ▸ hmax
      · exact ⟨v, by rw [hothers k hkk]; exact hk, le_refl v⟩
    · intro k v hk
      by_cases hkk : k = t'.key
      · subst hkk
        rw [hget] at hk
        injection hk with hk
        subst hk
        cases hsto : alistGet? updates t0.key with
        | none =>
          have hl : t0.last_update = ctx.launchTime := by rw [hlu0, hsto]; rfl
          exact lt_trans (hl ▸ hlaunch) hmax
        | some v0 =>
          have hv0 : 0 < v0 := hpos _ _ hsto
          have hl : t0.last_update = v0 := by rw [hlu0, hsto]; rfl
          exact lt_trans (hl ▸ hv0) hmax
      · rw [hothers k hkk] at hk
        exact hpos k v hk

/-- Claim C5: over one whole poll cycle started from a store whose values
are positive (as every reachable store is, the launch time being
positive), every watermark that was stored is still stored afterwards with
a value at least as large, and all stored values remain positive — so
watermarks are monotonically non-decreasing across successive passes. -/
theorem claim_C5_monotone (ctx : Ctx) (now : Int) (hlaunch : 0 < ctx.launchTime) :
    ∀ issues updates u' ts, storePos updates →
      process_changes ctx now updates issues = .ok (u', ts) →
      (∀ k v, alistGet? updates k = some v → ∃ v', alistGet? u' k = some v' ∧ v ≤ v') ∧
      storePos u' := by
  intro issues
  induction issues with
  | nil =>
    intro updates u' ts hpos h
    unfold process_changes at h
    simp only [Except.ok.injEq, Prod.mk.injEq] at h
    obtain ⟨h1, -⟩ := h
    subst h1
    exact ⟨fun k v hk => ⟨v, hk, le_refl v⟩, hpos⟩
  | cons issue rest ih =>
    intro updates u' ts hpos h
    unfold process_changes at h
    split at h
    · simp at h
    · rename_i u1 t hone
      split at h
      · simp at h
      · rename_i u2 ts2 hrest
        simp only [Except.ok.injEq, Prod.mk.injEq] at h
        obtain ⟨h1, -⟩ := h
        subst h1
        obtain ⟨m1, p1⟩ := process_one_mono ctx now updates issue u1 t hlaunch hpos hone
        obtain ⟨m2, p2⟩ := ih u1 _ ts2 p1 hrest
        refine ⟨?_, p2⟩
        intro k v hk
        obtain ⟨v1, hv1, hle1⟩ := m1 k v hk
        obtain ⟨v2, hv2, hle2⟩ := m2 k v1 hv1
        exact ⟨v2, hv2, le_trans hle1 hle2⟩

/-- Witness for claim C5: a cycle from the empty store writes watermark
2000 for the issue, and the theorem yields its positivity. -/
theorem claim_C5_monotone_witness :
    alistGet? (cycle_updates ctx0 2100 [] [issue2]) "CD-2" = some 2000 ∧ (0:Int) < 2000 := by
  refine ⟨by decide, ?_⟩
  have h := claim_C5_monotone ctx0 2100 (by decide) [issue2] [] _ _
    (fun k v hk => Option.noConfusion hk) rfl
  exact h.2 "CD-2" 2000 (by decide)

/-- Claim C7 amended: `make_event_dict` returns the sub-record unchanged
except in one case — a record with a `creator` but no `author` is updated
in place, its `author` set to the `creator`; so a processing pass is
read-only on the snapshot except for exactly this author rewrite. -/
theorem claim_C7_amended (ctx : Ctx) (t : JiraTicket) (entry e' : JVal) (o : Option Evt)
    (h : make_event_dict ctx t entry = .ok (e', o)) :
    e' = entry ∨
      ((entry.get? "author").isNone = true ∧ (entry.get? "creator").isSome = true ∧
       e' = jSet entry "author" ((entry.get? "creator").getD .null)) :=
  make_event_dict_entry ctx t entry e' o h

/-- Witness for the amended claim C7: on a concrete record with a creator
and no author the returned entry is exactly the author-rewritten one, and
that rewrite really changes the record. -/
theorem claim_C7_amended_witness :
    jSet entry7 "author" ((entry7.get? "creator").getD .null) ≠ entry7 ∧
    (make_event_dict ctx0 t4w entry7).map Prod.fst =
      .ok (jSet entry7 "author" ((entry7.get? "creator").getD .null)) := by
  refine ⟨by decide, ?_⟩
  rcases claim_C7_amended ctx0 t4w entry7 _ _ rfl with h | ⟨-, -, h⟩
  · exact absurd h (by decide)
  · exact congrArg Except.ok h

theorem process_one_init_err (ctx : Ctx) (now : Int) (updates : Updates) (j : JVal)
    (e : PyErr) (h : JiraTicket.init ctx updates j = .error e) :
    process_one ctx now updates j = .error e := by
  unfold process_one
  rw [h]

theorem process_changes_head_err (ctx : Ctx) (now : Int) (updates : Updates)
    (j : JVal) (rest : List JVal) (e : PyErr)
    (h : process_one ctx now updates j = .error e) :
    process_changes ctx now updates (j :: rest) = .error e := by
  unfold process_changes
  rw [h]

theorem init_err_no_key (ctx : Ctx) (updates : Updates) (j : JVal)
    (h : j.get? "key" = none) : JiraTicket.init ctx updates j = .error .keyError := by
  unfold JiraTicket.init
  rw [h]

theorem init_err_no_fields (ctx : Ctx) (updates : Updates) (j : JVal) (s : String)
    (hk : j.get? "key" = some (JVal.str s)) (hf : j.get? "fields" = none) :
    JiraTicket.init ctx updates j = .error .keyError := by
  unfold JiraTicket.init
  simp only [hk, hf]

theorem init_err_no_created (ctx : Ctx) (updates : Updates) (j : JVal) (s : String)
    (fl : JVal) (hk : j.get? "key" = some (JVal.str s)) (hf : j.get? "fields" = some fl)
    (hc : fl.get? "created" = none) :
    JiraTicket.init ctx updates j = .error .keyError := by
  unfold JiraTicket.init
  simp only [hk, hf, hc]

theorem init_err_bad_timestamp (ctx : Ctx) (updates : Updates) (j : JVal) (s cs : String)
    (fl : JVal) (hk : j.get? "key" = some (JVal.str s)) (hf : j.get? "fields" = some fl)
    (hc : fl.get? "created" = some (JVal.str cs)) (hp : ctx.parse cs = none) :
    JiraTicket.init ctx updates j = .error .valueError := by
  unfold JiraTicket.init
  simp only [hk, hf, hc, jira_to_datetime, hp]

/-- Claim C10: silent tolerance applies only at the sub-record level (a
sub-record without a creation time produces no event and no error), while
a snapshot missing `key`, missing `fields`, missing `fields.created`, or
carrying an unparsable timestamp string makes the whole poll cycle raise
(`KeyError`/`ValueError`) at that snapshot instead of skipping it. -/
theorem claim_C10_malformed_snapshot_raises :
    (∀ ctx now updates (rest : List JVal) j, j.get? "key" = none →
       process_changes ctx now updates (j :: rest) = .error .keyError) ∧
    (∀ ctx now updates (rest : List JVal) j s, j.get? "key" = some (JVal.str s) →
       j.get? "fields" = none →
       process_changes ctx now updates (j :: rest) = .error .keyError) ∧
    (∀ ctx now updates (rest : List JVal) j s fl, j.get? "key" = some (JVal.str s) →
       j.get? "fields" = some fl → fl.get? "created" = none →
       process_changes ctx now updates (j :: rest) = .error .keyError) ∧
    (∀ ctx now updates (rest : List JVal) j s cs fl, j.get? "key" = some (JVal.str s) →
       j.get? "fields" = some fl → fl.get? "created" = some (JVal.str cs) →
       ctx.parse cs = none →
       process_changes ctx now updates (j :: rest) = .error .valueError) ∧
    (process_changes ctx0 100 [] [issue10]).map
      (fun p => (p.1, p.2.map (fun t => t.events))) = .ok ([], [[]]) := by
  refine ⟨?_, ?_, ?_, ?_, by decide⟩
  · intro ctx now updates rest j h
    exact process_changes_head_err ctx now updates j rest _
      (process_one_init_err ctx now updates j _ (init_err_no_key ctx updates j h))
  · intro ctx now updates rest j s hk hf
    exact process_changes_head_err ctx now updates j rest _
      (process_one_init_err ctx now updates j _ (init_err_no_fields ctx updates j s hk hf))
  · intro ctx now updates rest j s fl hk hf hc
    exact process_changes_head_err ctx now updates j rest _
      (process_one_init_err ctx now updates j _ (init_err_no_created ctx updates j s fl hk hf hc))
  · intro ctx now updates rest j s cs fl hk hf hc hp
    exact process_changes_head_err ctx now updates j rest _
      (process_one_init_err ctx now updates j _
        (init_err_bad_timestamp ctx updates j s cs fl hk hf hc hp))

/-- Witness for claim C10 at concrete malformed snapshots. -/
theorem claim_C10_malformed_snapshot_raises_witness :
    process_changes ctx0 100 [] [jobj [("fields", jobj [("created", JVal.str "10")])]] =
      .error .keyError ∧
    process_changes ctx0 100 [] [jobj [("key", JVal.str "X-1")]] = .error .keyError ∧
    process_changes ctx0 100 [] [jobj [("key", JVal.str "X-1"), ("fields", jobj [])]] =
      .error .keyError ∧
    process_changes ctx0 100 [] [jobj [("key", JVal.str "X-1"),
      ("fields", jobj [("created", JVal.str "zzz")])]] = .error .valueError := by
  obtain ⟨h1, h2, h3, h4, -⟩ := claim_C10_malformed_snapshot_raises
  exact ⟨h1 ctx0 100 [] [] (jobj [("fields", jobj [("created", JVal.str "10")])]) rfl,
         h2 ctx0 100 [] [] (jobj [("key", JVal.str "X-1")]) "X-1" rfl rfl,
         h3 ctx0 100 [] [] (jobj [("key", JVal.str "X-1"), ("fields", jobj [])])
           "X-1" (jobj []) rfl rfl rfl,
         h4 ctx0 100 [] [] (jobj [("key", JVal.str "X-1"),
             ("fields", jobj [("created", JVal.str "zzz")])])
           "X-1" "zzz" (jobj [("created", JVal.str "zzz")]) rfl rfl rfl rfl⟩

/-- The per-item dispatch on a resolution item: empty previous value gives
the `close` event, non-empty gives the `resolution` event (watermark
positive in both cases). -/
theorem classify_item_resolution (link key : String) (lu : Int) (base : Evt)
    (fv : JVal) (toS : String) (hlu : 0 < lu) :
    (isTruthy fv = false →
      classify_item link key lu base
          (jobj [("field", JVal.str "resolution"), ("fromString", fv),
                 ("toString", JVal.str toS)]) =
        [alistSet (alistSet (alistSet base "action" (JVal.str "close"))
           "resolution" (JVal.str toS)) "action_human_text"
           (JVal.str ("closed <" ++ link ++ "|" ++ key ++ "> as _" ++ toS ++ "_."))]) ∧
    (isTruthy fv = true →
      classify_item link key lu base
          (jobj [("field", JVal.str "resolution"), ("fromString", fv),
                 ("toString", JVal.str toS)]) =
        [alistSet (alistSet (alistSet (alistSet base "action" (JVal.str "resolution"))
           "from" fv) "to" (JVal.str toS)) "action_human_text"
           (JVal.str ("changed the resolution of <" ++ link ++ "|" ++ key ++ "> from "))]) := by
  constructor
  · intro hfv
    simp [classify_item, JVal.get?, jobj, alistGet?, isTruthyO, hfv, hlu, pyStr]
  · intro hfv
    simp [classify_item, JVal.get?, jobj, alistGet?, isTruthyO, hfv, hlu, pyStr]

/-- Running `parse_changelog` over a snapshot holding exactly one history
entry with one item reduces the produced events to the per-item dispatch
applied to the base event of that entry. -/
theorem c8_changelog_run (ctx : Ctx) (t : JiraTicket) (cs toS : String) (n : Int)
    (fv : JVal)
    (hparse : ctx.parse cs = some n)
    (hq : t.last_update < n)
    (hev : t.events = [])
    (hjson : t.json_data = jobj [("changelog", jobj [("histories", jarr
      [jobj [("created", JVal.str cs), ("author", jobj []),
             ("items", jarr [jobj [("field", JVal.str "resolution"),
                                   ("fromString", fv), ("toString", JVal.str toS)]])]])])]) :
    changelog_events ctx t =
      classify_item t.link t.key t.last_update
        [("key", JVal.str t.key), ("link", JVal.str t.link), ("summary", t.summary),
         ("project", JVal.str (projectOf t.key)), ("action", JVal.str "unknown"),
         ("author", JVal.str "??"), ("author_uid", JVal.str "??"),
         ("timestamp", JVal.int n), ("base_entry_created", JVal.int n)]
        (jobj [("field", JVal.str "resolution"), ("fromString", fv),
               ("toString", JVal.str toS)]) := by
  have hd : jira_to_datetime ctx (JVal.str cs) = .ok n := by
    simp [jira_to_datetime, hparse]
  have hmed := make_event_dict_fresh ctx t
    (jobj [("created", JVal.str cs), ("author", jobj []),
           ("items", jarr [jobj [("field", JVal.str "resolution"),
                                 ("fromString", fv), ("toString", JVal.str toS)]])])
    (JVal.str cs) n n (.str "??") (.str "??") rfl hd rfl hd hq
  simp only [jobj, jarr] at hmed
  unfold changelog_events parse_changelog
  rw [hjson]
  simp [jobj, jarr, JVal.get?, JFields_toL_ofL, JList_toL_ofL, alistGet?,
        Option.getD, asArr, hmed, rewrite_author, changelog_go, hev]

/-- Claim C8: for a qualifying history candidate containing a resolution
item (the watermark being positive, as it is on every reachable store):
an empty previous value produces exactly one `close` event carrying the
new resolution value; a non-empty previous value produces exactly one
`resolution` event carrying the from and to values. -/
theorem claim_C8_resolution_events (ctx : Ctx) (t : JiraTicket) (cs toS : String)
    (n : Int) (fv : JVal)
    (hparse : ctx.parse cs = some n) (hq : t.last_update < n)
    (hlu : 0 < t.last_update) (hev : t.events = [])
    (hjson : t.json_data = jobj [("changelog", jobj [("histories", jarr
      [jobj [("created", JVal.str cs), ("author", jobj []),
             ("items", jarr [jobj [("field", JVal.str "resolution"),
                                   ("fromString", fv), ("toString", JVal.str toS)]])]])])]) :
    (isTruthy fv = false → ∃ e, changelog_events ctx t = [e] ∧
       alistGet? e "action" = some (JVal.str "close") ∧
       alistGet? e "resolution" = some (JVal.str toS)) ∧
    (isTruthy fv = true → ∃ e, changelog_events ctx t = [e] ∧
       alistGet? e "action" = some (JVal.str "resolution") ∧
       alistGet? e "from" = some fv ∧
       alistGet? e "to" = some (JVal.str toS)) := by
  have hrun := c8_changelog_run ctx t cs toS n fv hparse hq hev hjson
  have hcl := classify_item_resolution t.link t.key t.last_update
    [("key", JVal.str t.key), ("link", JVal.str t.link), ("summary", t.summary),
     ("project", JVal.str (projectOf t.key)), ("action", JVal.str "unknown"),
     ("author", JVal.str "??"), ("author_uid", JVal.str "??"),
     ("timestamp", JVal.int n), ("base_entry_created", JVal.int n)] fv toS hlu
  constructor
  · intro hfv
    refine ⟨_, by rw [hrun, hcl.1 hfv], ?_, ?_⟩ <;> rfl
  · intro hfv
    refine ⟨_, by rw [hrun, hcl.2 hfv], ?_, ?_, ?_⟩ <;> rfl

/-- Witness for claim C8: the spec examples — a resolution change
empty→Fixed gives one `close` event with resolution Fixed; Fixed→Duplicate
gives one `resolution` event with from Fixed, to Duplicate. -/
theorem claim_C8_resolution_events_witness :
    (changelog_events ctx0 (res_ticket (JVal.str "") "Fixed")).length = 1 ∧
    alistGet? ((changelog_events ctx0 (res_ticket (JVal.str "") "Fixed")).headD [])
      "action" = some (JVal.str "close") ∧
    alistGet? ((changelog_events ctx0 (res_ticket (JVal.str "") "Fixed")).headD [])
      "resolution" = some (JVal.str "Fixed") ∧
    (changelog_events ctx0 (res_ticket (JVal.str "Fixed") "Duplicate")).length = 1 ∧
    alistGet? ((changelog_events ctx0 (res_ticket (JVal.str "Fixed") "Duplicate")).headD [])
      "action" = some (JVal.str "resolution") ∧
    alistGet? ((changelog_events ctx0 (res_ticket (JVal.str "Fixed") "Duplicate")).headD [])
      "from" = some (JVal.str "Fixed") ∧
    alistGet? ((changelog_events ctx0 (res_ticket (JVal.str "Fixed") "Duplicate")).headD [])
      "to" = some (JVal.str "Duplicate") := by
  obtain ⟨e1, he1, ha1, hr1⟩ :=
    (claim_C8_resolution_events ctx0 (res_ticket (JVal.str "") "Fixed") "10" "Fixed" 10
      (JVal.str "") rfl (by decide) (by decide) rfl rfl).1 rfl
  obtain ⟨e2, he2, ha2, hf2, ht2⟩ :=
    (claim_C8_resolution_events ctx0 (res_ticket (JVal.str "Fixed") "Duplicate") "10"
      "Duplicate" 10 (JVal.str "Fixed") rfl (by decide) (by decide) rfl rfl).2 rfl
  rw [he1, he2]
  exact ⟨rfl, ha1, hr1, rfl, ha2, hf2, ht2⟩




